import Mathlib

/-!
Verification of the COVID-19 dashboard data pipeline
(src/app-20241118-a.py and src/app-20241118-b.py).

The two scripts load a table of per-country COVID case records and a table
of country polygons, filter the records by a maximum date (plain string
comparison in Python), in variant b additionally drop the OWID pseudo-region
rows, aggregate total cases by date (sum) and by country (max), left-merge
the per-country aggregates onto the polygons with fillna(0), and build a
branca linear colormap over the merged values.

Shallow embedding conventions:
- a pandas DataFrame column of strings is a field of type String; Python
  string comparison and startswith are embedded explicitly as code-point
  comparisons (pyStrLe, pyStartsWith);
- the numeric columns total_cases / total_deaths are floats with possible
  NaN in pandas; they are embedded as Option Int, none standing for NaN.
  pandas sum skips NaN (an all-NaN group sums to 0) and pandas max skips
  NaN (an all-NaN group yields NaN); this is reflected by filterMap;
- pandas groupby sorts the group keys ascending; embedded by an insertion
  sort by the lexicographic order on the key strings;
- pandas merge with how equal to left emits, for each left row in order,
  one output row per matching right row (in right order), or a single row
  with NaN when there is no match;
- the branca colormap works over rationals; interpolation divides by the
  width of a control-point interval, embedded with an explicit error value
  for a zero denominator.
-/

/-- Code point of a character, as a natural number (Python compares
strings by code points). -/
def charCode (c : Char) : Nat := c.val.toNat

/-- Python lexicographic string comparison, on code-point lists. -/
def pyStrLeAux : List Char → List Char → Bool
  | [], _ => true
  | _ :: _, [] => false
  | a :: as, b :: bs =>
    if charCode a < charCode b then true
    else if charCode b < charCode a then false
    else pyStrLeAux as bs

/-- Embedding of the Python expression `s <= t` on strings. -/
def pyStrLe (s t : String) : Bool := pyStrLeAux s.data t.data

/-- Helper for pyStartsWith: does the second list start with the first? -/
def pyStartsWithAux : List Char → List Char → Bool
  | [], _ => true
  | _ :: _, [] => false
  | a :: ps, b :: ss => decide (a = b) && pyStartsWithAux ps ss

/-- Embedding of the Python expression `s.startswith(pat)`. -/
def pyStartsWith (s pat : String) : Bool := pyStartsWithAux pat.data s.data

/-- One row of the COVID data table, after projection to the five columns
kept by the scripts.  total_cases and total_deaths are float columns in
pandas; none models NaN (a missing value). -/
structure CaseRecord where
  iso_code : String
  location : String
  date : String
  total_cases : Option Int
  total_deaths : Option Int
deriving DecidableEq

/-- One row of the country polygon table; the geometry is opaque and
irrelevant to the pipeline, kept as a numeric identifier. -/
structure CountryPolygon where
  ADM0_ISO : String
  geometry : Nat
deriving DecidableEq

/-- The configured maximum date (source line 26 of variant b, line 18 of
variant a). -/
def FECHA_MAXIMA_DATOS_COVID : String := "2024-08-04"

/-- The temporal filter of the scripts:
`datos = datos[datos[date] <= FECHA_MAXIMA_DATOS_COVID]` followed, when
an excluded code pattern is configured (variant b, pattern "OWID"), by
`datos = datos[~datos[iso_code].str.startswith(OWID)]`.
Variant a passes none, variant b passes some "OWID". -/
def temporalFilter (datos : List CaseRecord) (fechaMaxima : String)
    (pfx : Option String) : List CaseRecord :=
  let paso1 := datos.filter (fun r => pyStrLe r.date fechaMaxima)
  match pfx with
  | none => paso1
  | some p => paso1.filter (fun r => !(pyStartsWith r.iso_code p))

/-- The filtering stage of variant a (date bound only). -/
def filtroVarianteA (datos : List CaseRecord) : List CaseRecord :=
  temporalFilter datos FECHA_MAXIMA_DATOS_COVID none

/-- The filtering stage of variant b (date bound, then OWID exclusion). -/
def filtroVarianteB (datos : List CaseRecord) : List CaseRecord :=
  temporalFilter datos FECHA_MAXIMA_DATOS_COVID (some "OWID")

/-- Insert a string into a list sorted by pyStrLe. -/
def insertStr (x : String) : List String → List String
  | [] => [x]
  | y :: ys => if pyStrLe x y then x :: y :: ys else y :: insertStr x ys

/-- Sort a list of strings by pyStrLe (pandas groupby sorts group keys
ascending). -/
def sortStr : List String → List String
  | [] => []
  | x :: xs => insertStr x (sortStr xs)

/-- Embedding of
`datos.groupby(Fecha)[Casos totales].sum().reset_index()`:
one row per distinct date, value the sum of the non-NaN total_cases of
that date (pandas sum skips NaN and sums an all-NaN group to 0). -/
def casos_totales_por_fecha (datos : List CaseRecord) : List (String × Int) :=
  (sortStr ((datos.map (fun r => r.date)).dedup)).map
    (fun k => (k, ((datos.filter (fun r => r.date = k)).filterMap
      (fun r => r.total_cases)).sum))

/-- Embedding of
`datos.groupby(Codigo ISO)[Casos totales].max().reset_index()`:
one row per distinct country code, value the maximum of the non-NaN
total_cases of that code; none (NaN) when every value of the group is
NaN (pandas max of an all-NaN group is NaN). -/
def casos_totales_por_pais (datos : List CaseRecord) :
    List (String × Option Int) :=
  (sortStr ((datos.map (fun r => r.iso_code)).dedup)).map
    (fun k => (k, ((datos.filter (fun r => r.iso_code = k)).filterMap
      (fun r => r.total_cases)).max?))

/-- Embedding of
`paises.merge(casos_totales_por_pais, how=left, left_on=ADM0_ISO,
right_on=Codigo ISO)`: for each polygon in order, one output row per
matching aggregate row (in aggregate order), or a single row with NaN
value when no aggregate matches. -/
def mergeLeft (paises : List CountryPolygon)
    (aggs : List (String × Option Int)) :
    List (CountryPolygon × Option Int) :=
  paises.flatMap (fun p =>
    let ms := aggs.filter (fun kv => kv.1 = p.ADM0_ISO)
    if ms.isEmpty then [(p, none)] else ms.map (fun kv => (p, kv.2)))

/-- Embedding of
`paises[Casos totales] = paises[Casos totales].fillna(0)`. -/
def fillnaCasosTotales (filas : List (CountryPolygon × Option Int)) :
    List (CountryPolygon × Int) :=
  filas.map (fun pr => (pr.1, pr.2.getD 0))

/-- The merged-and-filled polygon table of the scripts. -/
def paisesConCasos (paises : List CountryPolygon)
    (aggs : List (String × Option Int)) : List (CountryPolygon × Int) :=
  fillnaCasosTotales (mergeLeft paises aggs)

/-- An RGBA color with rational components. -/
abbrev Color := ℚ × ℚ × ℚ × ℚ

/-- The nine control colors of the YlOrRd_09 palette (components scaled
to the unit interval, alpha 1). -/
def ylOrRd9 : List Color :=
  [ (255/255, 255/255, 204/255, 1)
  , (255/255, 237/255, 160/255, 1)
  , (254/255, 217/255, 118/255, 1)
  , (254/255, 178/255, 76/255, 1)
  , (253/255, 141/255, 60/255, 1)
  , (252/255, 78/255, 42/255, 1)
  , (227/255, 26/255, 28/255, 1)
  , (189/255, 0/255, 38/255, 1)
  , (128/255, 0/255, 38/255, 1) ]

/-- A linear colormap: control colors and their positions (the index). -/
structure LinearColormap where
  colors : List Color
  index : List ℚ

/-- Modelled from the spec: `linear.YlOrRd_09.scale(vmin, vmax)` of the
branca library (library code, not under src/) builds a linear colormap
whose control points are evenly spaced over the domain [vmin, vmax]. -/
def scaleYlOrRd9 (vmin vmax : ℚ) : LinearColormap :=
  { colors := ylOrRd9
  , index := (List.range 9).map (fun k => vmin + (vmax - vmin) * k / 8) }

/-- Componentwise linear interpolation between two colors. -/
def lerpColor (c1 c2 : Color) (p : ℚ) : Color :=
  ( (1 - p) * c1.1 + p * c2.1
  , (1 - p) * c1.2.1 + p * c2.2.1
  , (1 - p) * c1.2.2.1 + p * c2.2.2.1
  , (1 - p) * c1.2.2.2 + p * c2.2.2.2 )

/-- Modelled from the spec: the value-to-color mapping of the branca
linear colormap (library code, not under src/): a value at or below the
first control point takes the first color, a value at or beyond the last
control point takes the last color, and a value strictly inside the
domain is interpolated linearly between the two adjacent control points
at normalized position (x - lo) / (hi - lo); a zero-width interval would
make that division a float division by zero, kept as an explicit error
value. -/
def rgbaFloatsTuple (cm : LinearColormap) (x : ℚ) : Except String Color :=
  let negro : Color := (0, 0, 0, 0)
  let i0 := cm.index.getD 0 0
  let iN := cm.index.getD (cm.index.length - 1) 0
  if x ≤ i0 then Except.ok (cm.colors.getD 0 negro)
  else if iN ≤ x then Except.ok (cm.colors.getD (cm.colors.length - 1) negro)
  else
    let i := (cm.index.filter (fun u => decide (u < x))).length
    let lo := cm.index.getD (i - 1) 0
    let hi := cm.index.getD i 0
    if hi - lo = 0 then Except.error "float division by zero"
    else Except.ok (lerpColor (cm.colors.getD (i - 1) negro)
      (cm.colors.getD i negro) ((x - lo) / (hi - lo)))

/-- Embedding of
`paleta_colores = linear.YlOrRd_09.scale(paises[Casos totales].min(),
paises[Casos totales].max())`: the colormap is scaled to the minimum and
maximum of the merged-and-filled values. -/
def paleta_colores (filas : List (CountryPolygon × Int)) : LinearColormap :=
  scaleYlOrRd9 (((filas.map (fun pr => pr.2)).min?.getD 0 : Int) : ℚ)
    (((filas.map (fun pr => pr.2)).max?.getD 0 : Int) : ℚ)

/-- The three data artifacts of a script run, from the already-loaded
record and polygon tables: the projected table, the by-date series and
the merged-and-filled choropleth values. -/
def pipeline (filtro : List CaseRecord → List CaseRecord)
    (datos : List CaseRecord) (paises : List CountryPolygon) :
    List CaseRecord × List (String × Int) × List (CountryPolygon × Int) :=
  let d := filtro datos
  (d, casos_totales_por_fecha d, paisesConCasos paises (casos_totales_por_pais d))

/-- The pipeline of variant a (src/app-20241118-a.py). -/
def pipelineVarianteA (datos : List CaseRecord)
    (paises : List CountryPolygon) :
    List CaseRecord × List (String × Int) × List (CountryPolygon × Int) :=
  pipeline filtroVarianteA datos paises

/-- The pipeline of variant b (src/app-20241118-b.py). -/
def pipelineVarianteB (datos : List CaseRecord)
    (paises : List CountryPolygon) :
    List CaseRecord × List (String × Int) × List (CountryPolygon × Int) :=
  pipeline filtroVarianteB datos paises

/-- A concrete case record used in witnesses and counterexamples. -/
def rUSA : CaseRecord :=
  { iso_code := "USA", location := "United States", date := "2024-01-01"
  , total_cases := some 100, total_deaths := some 2 }

/-- A later record of the same country, with more cases. -/
def rUSA2 : CaseRecord :=
  { iso_code := "USA", location := "United States", date := "2024-01-02"
  , total_cases := some 150, total_deaths := some 2 }

/-- A concrete case record of a second country. -/
def rCAN : CaseRecord :=
  { iso_code := "CAN", location := "Canada", date := "2024-01-01"
  , total_cases := some 50, total_deaths := some 1 }

/-- A concrete pseudo-region record (OWID aggregate row). -/
def rOWID : CaseRecord :=
  { iso_code := "OWID_WRL", location := "World", date := "2020-01-01"
  , total_cases := some 5, total_deaths := some 2 }

/-- A concrete record whose total_cases is missing (NaN). -/
def rUSAnan : CaseRecord :=
  { iso_code := "USA", location := "United States", date := "2024-01-03"
  , total_cases := none, total_deaths := none }

section Lemas

/-- The insertion step produces a permutation of the element consed on. -/
theorem insertStr_perm (x : String) (l : List String) :
    (insertStr x l).Perm (x :: l) := by
  induction l with
  | nil => simp [insertStr]
  | cons y ys ih =>
    by_cases h : pyStrLe x y = true
    · simp [insertStr, h]
    · simp only [insertStr, h, if_false]
      exact (ih.cons y).trans (List.Perm.swap x y ys)

/-- Sorting the group keys permutes them. -/
theorem sortStr_perm (l : List String) : (sortStr l).Perm l := by
  induction l with
  | nil => simp [sortStr]
  | cons x xs ih =>
    exact (insertStr_perm x (sortStr xs)).trans (ih.cons x)

/-- Membership is preserved by the key sort. -/
theorem mem_sortStr {a : String} {l : List String} :
    a ∈ sortStr l ↔ a ∈ l :=
  (sortStr_perm l).mem_iff

/-- Sorting preserves the absence of duplicate keys. -/
theorem nodup_sortStr {l : List String} (h : l.Nodup) :
    (sortStr l).Nodup :=
  (sortStr_perm l).symm.nodup h

/-- Splitting a list by one Boolean predicate splits the sum of its
filterMap values. -/
theorem sum_filterMap_split {α : Type} (p : α → Bool) (f : α → Option Int)
    (l : List α) :
    ((l.filter p).filterMap f).sum
      + ((l.filter (fun a => !(p a))).filterMap f).sum
      = (l.filterMap f).sum := by
  induction l with
  | nil => simp
  | cons a as ih =>
    cases hp : p a <;> cases hf : f a <;>
      simp [List.filter_cons, List.filterMap_cons, hp, hf] <;> omega

/-- Summing the per-group sums over a duplicate-free list of keys that
covers every element gives the total sum. -/
theorem sum_over_groups {α κ : Type} [DecidableEq κ] (key : α → κ)
    (f : α → Option Int) :
    ∀ (ks : List κ) (l : List α), ks.Nodup → (∀ a ∈ l, key a ∈ ks) →
    (ks.map (fun k => ((l.filter (fun a => key a = k)).filterMap f).sum)).sum
      = (l.filterMap f).sum := by
  intro ks
  induction ks with
  | nil =>
    intro l _ hcov
    have : l = [] := by
      cases l with
      | nil => rfl
      | cons a as => exact absurd (hcov a (by simp)) (by simp)
    simp [this]
  | cons k ks ih =>
    intro l hnd hcov
    have hk : k ∉ ks := (List.nodup_cons.mp hnd).1
    have hnd' : ks.Nodup := (List.nodup_cons.mp hnd).2
    set l' := l.filter (fun a => !(decide (key a = k))) with hl'
    have hgrp : ∀ k' ∈ ks,
        ((l.filter (fun a => key a = k')).filterMap f).sum
          = ((l'.filter (fun a => key a = k')).filterMap f).sum := by
      intro k' hk'
      have hne : k' ≠ k := by
        intro h; exact hk (h ▸ hk')
      have hfilters : l'.filter (fun a => key a = k')
          = l.filter (fun a => key a = k') := by
        rw [hl', List.filter_filter]
        apply List.filter_congr
        intro a _
        by_cases h : key a = k'
        · have hnk : ¬(key a = k) := by rw [h]; exact hne
          simp [h, hnk, hne]
        · simp [h]
      rw [hfilters]
    have hcov' : ∀ a ∈ l', key a ∈ ks := by
      intro a ha
      have hmem := List.mem_of_mem_filter ha
      have hprop := List.of_mem_filter ha
      have hne : ¬(key a = k) := by
        simpa using hprop
      have := hcov a hmem
      simp only [List.mem_cons] at this
      exact this.resolve_left hne
    calc (((k :: ks)).map
          (fun k => ((l.filter (fun a => key a = k)).filterMap f).sum)).sum
        = ((l.filter (fun a => key a = k)).filterMap f).sum
          + (ks.map (fun k =>
              ((l.filter (fun a => key a = k)).filterMap f).sum)).sum := by
          simp
      _ = ((l.filter (fun a => key a = k)).filterMap f).sum
          + (ks.map (fun k =>
              ((l'.filter (fun a => key a = k)).filterMap f).sum)).sum := by
          rw [List.map_congr_left hgrp]
      _ = ((l.filter (fun a => key a = k)).filterMap f).sum
          + (l'.filterMap f).sum := by
          rw [ih l' hnd' hcov']
      _ = (l.filterMap f).sum := sum_filterMap_split _ f l

/-- Filtering a duplicate-free list for one of its members yields exactly
that member. -/
theorem filter_eq_single_of_nodup {l : List String} {c : String}
    (hnd : l.Nodup) (hc : c ∈ l) :
    l.filter (fun x => x = c) = [c] := by
  induction l with
  | nil => cases hc
  | cons a as ih =>
    rcases List.nodup_cons.mp hnd with ⟨hna, hnd'⟩
    rcases List.mem_cons.mp hc with h | h
    · subst h
      have hnil : as.filter (fun x => x = c) = [] := by
        rw [List.filter_eq_nil_iff]
        intro b hb
        simp only [decide_eq_true_eq]
        intro hbc
        exact hna (hbc ▸ hb)
      simp [List.filter_cons, hnil]
    · have hne : ¬(a = c) := by
        intro hac
        exact hna (hac ▸ h)
      simp [List.filter_cons, hne, ih hnd' h]

end Lemas

/-- C1: the temporal filter keeps a record iff its date is at most the
configured maximum date (Python string comparison) and, when an excluded
code pattern is configured, its country code does not start with that
pattern; the kept records form a sublist of the input, so their relative
order is preserved. -/
theorem C1_temporal_filter_keeps_iff (datos : List CaseRecord)
    (fechaMaxima : String) (pfx : Option String) (r : CaseRecord) :
    (r ∈ temporalFilter datos fechaMaxima pfx ↔
      r ∈ datos ∧ pyStrLe r.date fechaMaxima = true ∧
        ∀ p, pfx = some p → pyStartsWith r.iso_code p = false) ∧
    (temporalFilter datos fechaMaxima pfx).Sublist datos := by
  constructor
  · cases pfx with
    | none =>
      simp only [temporalFilter, List.mem_filter]
      constructor
      · rintro ⟨hm, hd⟩
        exact ⟨hm, hd, by intro p hp; cases hp⟩
      · rintro ⟨hm, hd, _⟩
        exact ⟨hm, hd⟩
    | some p =>
      simp only [temporalFilter, List.mem_filter]
      constructor
      · rintro ⟨⟨hm, hd⟩, hp⟩
        refine ⟨hm, hd, ?_⟩
        intro q hq
        injection hq with hq
        subst hq
        simpa using hp
      · rintro ⟨hm, hd, hp⟩
        exact ⟨⟨hm, hd⟩, by simp [hp p rfl]⟩
  · cases pfx with
    | none => exact List.filter_sublist datos
    | some p =>
      exact (List.filter_sublist _).trans (List.filter_sublist datos)

/-- C1 witness: a concrete instantiation of the filter characterization. -/
theorem C1_temporal_filter_keeps_iff_witness :
    (rUSA ∈ temporalFilter [rUSA, rOWID] FECHA_MAXIMA_DATOS_COVID
        (some "OWID") ↔
      rUSA ∈ [rUSA, rOWID] ∧
        pyStrLe rUSA.date FECHA_MAXIMA_DATOS_COVID = true ∧
        ∀ p, (some "OWID" : Option String) = some p →
          pyStartsWith rUSA.iso_code p = false) ∧
    (temporalFilter [rUSA, rOWID] FECHA_MAXIMA_DATOS_COVID
      (some "OWID")).Sublist [rUSA, rOWID] :=
  C1_temporal_filter_keeps_iff [rUSA, rOWID] FECHA_MAXIMA_DATOS_COVID
    (some "OWID") rUSA

/-- C2: mass conservation of the by-date aggregation: the sum of the
per-date sums equals the sum of all present (non-NaN) total_cases values
of the filtered records. -/
theorem C2_suma_por_fecha_conserva_masa (datos : List CaseRecord) :
    ((casos_totales_por_fecha datos).map (fun kv => kv.2)).sum
      = (datos.filterMap (fun r => r.total_cases)).sum := by
  unfold casos_totales_por_fecha
  rw [List.map_map]
  have hperm : (sortStr ((datos.map (fun r => r.date)).dedup)).Perm
      ((datos.map (fun r => r.date)).dedup) :=
    sortStr_perm _
  have := (hperm.map (fun k =>
    ((datos.filter (fun r => r.date = k)).filterMap
      (fun r => r.total_cases)).sum)).sum_eq
  calc ((sortStr ((datos.map (fun r => r.date)).dedup)).map
        ((fun kv : String × Int => kv.2) ∘ (fun k =>
          (k, ((datos.filter (fun r => r.date = k)).filterMap
            (fun r => r.total_cases)).sum)))).sum
      = ((sortStr ((datos.map (fun r => r.date)).dedup)).map (fun k =>
          ((datos.filter (fun r => r.date = k)).filterMap
            (fun r => r.total_cases)).sum)).sum := rfl
    _ = (((datos.map (fun r => r.date)).dedup).map (fun k =>
          ((datos.filter (fun r => r.date = k)).filterMap
            (fun r => r.total_cases)).sum)).sum := this
    _ = (datos.filterMap (fun r => r.total_cases)).sum :=
          sum_over_groups (fun r => r.date) (fun r => r.total_cases)
            ((datos.map (fun r => r.date)).dedup) datos (List.nodup_dedup _)
            (fun a ha => List.mem_dedup.mpr (List.mem_map_of_mem _ ha))

/-- C3: for every country code appearing in the filtered records, the
by-country aggregation has exactly one row for that code, and its value is
the maximum of the present (non-NaN) total_cases values of that code. -/
theorem C3_max_por_pais_fila_unica (datos : List CaseRecord) (c : String)
    (hc : c ∈ datos.map (fun r => r.iso_code)) :
    (casos_totales_por_pais datos).filter (fun kv => kv.1 = c)
      = [(c, ((datos.filter (fun r => r.iso_code = c)).filterMap
          (fun r => r.total_cases)).max?)] := by
  unfold casos_totales_por_pais
  rw [List.filter_map]
  have hcomp : ((fun kv : String × Option Int => decide (kv.1 = c)) ∘
      (fun k => (k, ((datos.filter (fun r => r.iso_code = k)).filterMap
        (fun r => r.total_cases)).max?)))
      = fun k => decide (k = c) := rfl
  rw [hcomp]
  have hnd : (sortStr ((datos.map (fun r => r.iso_code)).dedup)).Nodup :=
    nodup_sortStr (List.nodup_dedup _)
  have hmem : c ∈ sortStr ((datos.map (fun r => r.iso_code)).dedup) :=
    mem_sortStr.mpr (List.mem_dedup.mpr hc)
  rw [filter_eq_single_of_nodup hnd hmem]
  rfl

/-- C3 witness: the by-country row of USA among three concrete records. -/
theorem C3_max_por_pais_fila_unica_witness :
    (casos_totales_por_pais [rUSA, rUSA2, rCAN]).filter
        (fun kv => kv.1 = "USA")
      = [("USA", (([rUSA, rUSA2, rCAN].filter
          (fun r => r.iso_code = "USA")).filterMap
          (fun r => r.total_cases)).max?)] :=
  C3_max_por_pais_fila_unica [rUSA, rUSA2, rCAN] "USA" (by decide)

section LemasMerge

/-- Under duplicate-free aggregate codes, at most one aggregate row
matches any fixed code. -/
theorem filter_key_length_le_one (aggs : List (String × Option Int))
    (hnd : (aggs.map (fun kv => kv.1)).Nodup) (c : String) :
    (aggs.filter (fun kv => kv.1 = c)).length ≤ 1 := by
  induction aggs with
  | nil => simp
  | cons a as ih =>
    rw [List.map_cons, List.nodup_cons] at hnd
    obtain ⟨hna, hnd'⟩ := hnd
    by_cases h : a.1 = c
    · have hnil : as.filter (fun kv => kv.1 = c) = [] := by
        rw [List.filter_eq_nil_iff]
        intro kv hkv
        simp only [decide_eq_true_eq]
        intro hkc
        apply hna
        rw [h, ← hkc]
        exact List.mem_map_of_mem _ hkv
      simp [List.filter_cons, h, hnil]
    · simpa [List.filter_cons, h] using ih hnd'

/-- The length of the left merge: one row per polygon with no match,
one row per matching aggregate otherwise. -/
theorem mergeLeft_length (paises : List CountryPolygon)
    (aggs : List (String × Option Int)) :
    (mergeLeft paises aggs).length
      = (paises.map (fun p =>
          max 1 (aggs.filter (fun kv => kv.1 = p.ADM0_ISO)).length)).sum := by
  induction paises with
  | nil => rfl
  | cons p ps ih =>
    rw [mergeLeft, List.flatMap_cons, List.length_append, List.map_cons,
      List.sum_cons]
    rw [mergeLeft] at ih
    rw [ih]
    congr 1
    cases hfil : aggs.filter (fun kv => kv.1 = p.ADM0_ISO) with
    | nil => simp [hfil]
    | cons kv kvs =>
      simp only [hfil, List.isEmpty_cons, if_false, Bool.false_eq_true,
        List.length_map, List.length_cons]
      omega

end LemasMerge

/-- C4 (amended): when the aggregate codes are pairwise distinct, as the
by-country aggregation guarantees, the merged-and-filled output has exactly
one row per polygon, and a polygon with no matching aggregate gets the
value 0. -/
theorem C4_union_completa (paises : List CountryPolygon)
    (aggs : List (String × Option Int))
    (hnd : (aggs.map (fun kv => kv.1)).Nodup) :
    (paisesConCasos paises aggs).length = paises.length ∧
    ∀ p ∈ paises, aggs.filter (fun kv => kv.1 = p.ADM0_ISO) = [] →
      (p, (0 : Int)) ∈ paisesConCasos paises aggs := by
  constructor
  · unfold paisesConCasos fillnaCasosTotales
    rw [List.length_map, mergeLeft_length]
    have : ∀ p ∈ paises,
        (fun p => max 1
          (aggs.filter (fun kv => kv.1 = p.ADM0_ISO)).length) p = 1 := by
      intro p _
      have := filter_key_length_le_one aggs hnd p.ADM0_ISO
      simp only []
      omega
    rw [List.map_congr_left this]
    simp
  · intro p hp hnomatch
    have hmem : (p, (none : Option Int)) ∈ mergeLeft paises aggs := by
      apply List.mem_flatMap.mpr
      refine ⟨p, hp, ?_⟩
      rw [hnomatch]
      simp
    unfold paisesConCasos fillnaCasosTotales
    exact List.mem_map.mpr ⟨(p, none), hmem, rfl⟩

/-- C4 witness: two concrete polygons, one matched and one unmatched. -/
theorem C4_union_completa_witness :
    (paisesConCasos [⟨"USA", 0⟩, ⟨"MEX", 1⟩]
        [("USA", some 5)]).length
      = ([⟨"USA", 0⟩, (⟨"MEX", 1⟩ : CountryPolygon)] : List CountryPolygon).length ∧
    ∀ p ∈ [⟨"USA", 0⟩, (⟨"MEX", 1⟩ : CountryPolygon)],
      [("USA", (some 5 : Option Int))].filter
        (fun kv => kv.1 = p.ADM0_ISO) = [] →
      (p, (0 : Int)) ∈ paisesConCasos [⟨"USA", 0⟩, ⟨"MEX", 1⟩]
        [("USA", some 5)] :=
  C4_union_completa [⟨"USA", 0⟩, ⟨"MEX", 1⟩] [("USA", some 5)] (by decide)

/-- C4 counterexample: with two aggregate rows of the same code, the
merge duplicates the polygon, so the output count differs from the
polygon count. -/
theorem C4_union_completa_contraejemplo :
    ¬ ((paisesConCasos [⟨"USA", 0⟩]
          [("USA", some 1), ("USA", some 2)]).length
        = ([⟨"USA", 0⟩] : List CountryPolygon).length) := by
  decide

/-- C6 (amended): the left merge emits one row per matching aggregate row
(in aggregate order) for each polygon, or a single NaN row when nothing
matches; every matching aggregate contributes its own row, so an ambiguous
code yields several rows rather than one row with the first match, and no
warning exists in the output. -/
theorem C6_merge_duplica_ambiguos (paises : List CountryPolygon)
    (aggs : List (String × Option Int)) :
    (mergeLeft paises aggs).length
      = (paises.map (fun p =>
          max 1 (aggs.filter (fun kv => kv.1 = p.ADM0_ISO)).length)).sum ∧
    ∀ p ∈ paises, ∀ kv ∈ aggs, kv.1 = p.ADM0_ISO →
      (p, kv.2) ∈ mergeLeft paises aggs := by
  refine ⟨mergeLeft_length paises aggs, ?_⟩
  intro p hp kv hkv hkey
  apply List.mem_flatMap.mpr
  refine ⟨p, hp, ?_⟩
  have hkvf : kv ∈ aggs.filter (fun kv => kv.1 = p.ADM0_ISO) :=
    List.mem_filter.mpr ⟨hkv, by simp [hkey]⟩
  cases hfil : aggs.filter (fun kv => kv.1 = p.ADM0_ISO) with
  | nil => rw [hfil] at hkvf; cases hkvf
  | cons a as =>
    rw [hfil] at hkvf
    simp only [hfil, List.isEmpty_cons, if_false, Bool.false_eq_true]
    exact List.mem_map_of_mem _ hkvf

/-- C6 witness: a concrete matching aggregate row appears in the merge
output. -/
theorem C6_merge_duplica_ambiguos_witness :
    ((⟨"USA", 0⟩ : CountryPolygon), (some 5 : Option Int)) ∈
      mergeLeft [⟨"USA", 0⟩] [("USA", some 5)] :=
  (C6_merge_duplica_ambiguos [⟨"USA", 0⟩] [("USA", some 5)]).2
    ⟨"USA", 0⟩ (by decide) ("USA", some 5) (by decide) (by decide)

/-- C6 counterexample: with two aggregate rows of the same code, the merge
produces two joined rows carrying both values, not one row with the first
match. -/
theorem C6_merge_duplica_ambiguos_contraejemplo :
    mergeLeft [⟨"USA", 0⟩] [("USA", some 1), ("USA", some 2)]
      = [(⟨"USA", 0⟩, some 1), (⟨"USA", 0⟩, some 2)] ∧
    ¬ ((mergeLeft [⟨"USA", 0⟩]
        [("USA", some 1), ("USA", some 2)]).length = 1) := by
  constructor
  · decide
  · decide

section LemasColormap

/-- Folding min over a constant list starting at the constant value. -/
theorem foldl_min_const {m : Int} :
    ∀ as : List Int, (∀ v ∈ as, v = m) → as.foldl min m = m := by
  intro as
  induction as with
  | nil => intro _; rfl
  | cons b bs ih =>
    intro h
    have hb : b = m := h b (by simp)
    have : ∀ v ∈ bs, v = m := fun v hv => h v (by simp [hv])
    simp [List.foldl_cons, hb, ih this]

/-- Folding max over a constant list starting at the constant value. -/
theorem foldl_max_const {m : Int} :
    ∀ as : List Int, (∀ v ∈ as, v = m) → as.foldl max m = m := by
  intro as
  induction as with
  | nil => intro _; rfl
  | cons b bs ih =>
    intro h
    have hb : b = m := h b (by simp)
    have : ∀ v ∈ bs, v = m := fun v hv => h v (by simp [hv])
    simp [List.foldl_cons, hb, ih this]

/-- The minimum of a nonempty constant list. -/
theorem min?_const {l : List Int} {m : Int} (hne : l ≠ [])
    (h : ∀ v ∈ l, v = m) : l.min? = some m := by
  cases l with
  | nil => exact absurd rfl hne
  | cons a as =>
    have ha : a = m := h a (by simp)
    have has : ∀ v ∈ as, v = m := fun v hv => h v (by simp [hv])
    show some (as.foldl min a) = some m
    rw [ha, foldl_min_const as has]

/-- The maximum of a nonempty constant list. -/
theorem max?_const {l : List Int} {m : Int} (hne : l ≠ [])
    (h : ∀ v ∈ l, v = m) : l.max? = some m := by
  cases l with
  | nil => exact absurd rfl hne
  | cons a as =>
    have ha : a = m := h a (by simp)
    have has : ∀ v ∈ as, v = m := fun v hv => h v (by simp [hv])
    show some (as.foldl max a) = some m
    rw [ha, foldl_max_const as has]

/-- A degenerate colormap (both domain bounds equal) returns its first
control color for any input at or below the bound, before reaching any
division. -/
theorem rgba_degenerate (v x : ℚ) (hx : x ≤ v) :
    rgbaFloatsTuple (scaleYlOrRd9 v v) x
      = Except.ok ((255/255 : ℚ), 255/255, 204/255, 1) := by
  have hi0 : (scaleYlOrRd9 v v).index.getD 0 0 = v := by
    show (((List.range 9).map
      (fun k => v + (v - v) * k / 8)).getD 0 0) = v
    have hr : List.range 9 = [0, 1, 2, 3, 4, 5, 6, 7, 8] := rfl
    rw [hr]
    simp
  simp only [rgbaFloatsTuple]
  rw [hi0, if_pos hx]
  rfl

end LemasColormap

/-- C5: when every merged value equals the same number m, the colormap of
the scripts is scaled over the degenerate domain [m, m]; applied to any of
the values it returns the first palette color for all of them and never
reaches the division of the interpolation branch (no division error). -/
theorem C5_paleta_degenerada (filas : List (CountryPolygon × Int))
    (m : Int) (hne : filas ≠ []) (hall : ∀ pr ∈ filas, pr.2 = m) :
    ∀ pr ∈ filas, rgbaFloatsTuple (paleta_colores filas) ((pr.2 : Int) : ℚ)
      = Except.ok ((255/255 : ℚ), 255/255, 204/255, 1) := by
  have hvals : ∀ v ∈ filas.map (fun pr => pr.2), v = m := by
    intro v hv
    rcases List.mem_map.mp hv with ⟨q, hq, rfl⟩
    exact hall q hq
  have hvne : filas.map (fun pr => pr.2) ≠ [] := by
    intro h
    exact hne (List.map_eq_nil_iff.mp h)
  have hmin : (filas.map (fun pr => pr.2)).min? = some m :=
    min?_const hvne hvals
  have hmax : (filas.map (fun pr => pr.2)).max? = some m :=
    max?_const hvne hvals
  have hpal : paleta_colores filas = scaleYlOrRd9 (m : ℚ) (m : ℚ) := by
    unfold paleta_colores
    rw [hmin, hmax]
    rfl
  intro pr hpr
  rw [hpal, hall pr hpr]
  exact rgba_degenerate (m : ℚ) (m : ℚ) le_rfl

/-- C5 witness: on two polygons with equal merged value 5, the colormap
of the scripts sends the value 5 to the first palette color. -/
theorem C5_paleta_degenerada_witness :
    rgbaFloatsTuple
      (paleta_colores [(⟨"USA", 0⟩, 5), (⟨"CAN", 1⟩, 5)])
      (((5 : Int) : ℚ))
      = Except.ok ((255/255 : ℚ), 255/255, 204/255, 1) :=
  C5_paleta_degenerada [(⟨"USA", 0⟩, 5), (⟨"CAN", 1⟩, 5)] 5
    (by decide) (by decide)
    ((⟨"USA", 0⟩ : CountryPolygon), (5 : Int)) (by decide)

/-- C7 (amended): NaN values are excluded from both aggregations: every
by-date row is the sum of only the present values of its date (so the
by-date output, of a NaN-free numeric type, never carries a NaN), every
by-country row is the maximum of only the present values of its code, and
a NaN (none) appears in the by-country output only for a code all of whose
records have NaN total_cases. -/
theorem C7_nan_excluidos (datos : List CaseRecord) :
    (∀ kv ∈ casos_totales_por_fecha datos,
      kv.2 = ((datos.filter (fun r => r.date = kv.1)).filterMap
        (fun r => r.total_cases)).sum) ∧
    (∀ kv ∈ casos_totales_por_pais datos,
      kv.2 = ((datos.filter (fun r => r.iso_code = kv.1)).filterMap
        (fun r => r.total_cases)).max?) ∧
    (∀ kv ∈ casos_totales_por_pais datos, kv.2 = none →
      ∀ r ∈ datos, r.iso_code = kv.1 → r.total_cases = none) := by
  have hpais : ∀ kv ∈ casos_totales_por_pais datos,
      kv.2 = ((datos.filter (fun r => r.iso_code = kv.1)).filterMap
        (fun r => r.total_cases)).max? := by
    intro kv hkv
    rcases List.mem_map.mp hkv with ⟨k, _, rfl⟩
    rfl
  refine ⟨?_, hpais, ?_⟩
  · intro kv hkv
    rcases List.mem_map.mp hkv with ⟨k, _, rfl⟩
    rfl
  · intro kv hkv hnone r hr hcode
    have hmax := hpais kv hkv
    rw [hnone] at hmax
    have hempty : (datos.filter (fun r => r.iso_code = kv.1)).filterMap
        (fun r => r.total_cases) = [] := by
      cases h : (datos.filter (fun r => r.iso_code = kv.1)).filterMap
          (fun r => r.total_cases) with
      | nil => rfl
      | cons a as =>
        rw [h] at hmax
        cases hmax
    have hrfil : r ∈ datos.filter (fun r => r.iso_code = kv.1) :=
      List.mem_filter.mpr ⟨hr, by simp [hcode]⟩
    have := List.filterMap_eq_nil_iff.mp hempty r hrfil
    exact this

/-- C7 witness: the NaN-carrying record of an all-NaN country indeed has
NaN total_cases, extracted through the by-country characterization. -/
theorem C7_nan_excluidos_witness : rUSAnan.total_cases = none :=
  (C7_nan_excluidos [rUSAnan]).2.2 ("USA", none) (by decide) rfl
    rUSAnan (by decide) (by decide)

/-- C7 counterexample: a country whose only record has NaN total_cases
produces a NaN (none) row in the by-country aggregation output, so the
aggregation outputs are not NaN-free. -/
theorem C7_nan_excluidos_contraejemplo :
    casos_totales_por_pais [rUSAnan] = [("USA", none)] ∧
    (none : Option Int) ∈
      (casos_totales_por_pais [rUSAnan]).map (fun kv => kv.2) := by
  exact ⟨by decide, by decide⟩

/-- Split a code-point list at the dash characters (accumulator-based). -/
def splitDashAux : List Char → List Char → List (List Char)
  | [], acc => [acc.reverse]
  | c :: rest, acc =>
    if c = '-' then acc.reverse :: splitDashAux rest []
    else splitDashAux rest (c :: acc)

/-- Split a code-point list at the dash characters. -/
def splitDash (l : List Char) : List (List Char) := splitDashAux l []

/-- Is the character a decimal digit (code points 48 to 57)? -/
def isDigitCh (c : Char) : Bool :=
  decide (48 ≤ charCode c) && decide (charCode c ≤ 57)

/-- The numeric value of a digit string. -/
def digitsVal (l : List Char) : Nat :=
  l.foldl (fun acc c => 10 * acc + (charCode c - 48)) 0

/-- Modelled from the spec: the lenient date parsing applied by
pandas.to_datetime (library code, not under src/) on dash-separated
year-month-day strings, which also accepts months and days without a
leading zero; used only to express which strings are parseable as dates
and which calendar date they denote. -/
def lenientParse (s : String) : Option (Nat × Nat × Nat) :=
  match splitDash s.data with
  | [ys, ms, ds] =>
    if ys ≠ [] ∧ ms ≠ [] ∧ ds ≠ [] ∧ ys.length ≤ 4 ∧ ms.length ≤ 2
        ∧ ds.length ≤ 2 ∧ ys.all isDigitCh ∧ ms.all isDigitCh
        ∧ ds.all isDigitCh then
      if 1 ≤ digitsVal ms ∧ digitsVal ms ≤ 12 ∧ 1 ≤ digitsVal ds
          ∧ digitsVal ds ≤ 31 then
        some (digitsVal ys, digitsVal ms, digitsVal ds)
      else none
    else none
  | _ => none

/-- Modelled from the spec: the TemporalFilter failure contract of
section 4.1 (fails with a validation error when the configured maximum
date is unparseable, otherwise filters); no corresponding code exists in
src/, where the scripts never parse the configured bound. -/
def specTemporalFilter (datos : List CaseRecord) (fechaMaxima : String)
    (pfx : Option String) : Except String (List CaseRecord) :=
  if (lenientParse fechaMaxima).isSome then
    Except.ok (temporalFilter datos fechaMaxima pfx)
  else Except.error "ValidationError: fecha maxima no interpretable"

/-- The temporal filter keeps a sublist of its input, for every
configuration. -/
theorem temporalFilter_sublist (datos : List CaseRecord)
    (fechaMaxima : String) (pfx : Option String) :
    (temporalFilter datos fechaMaxima pfx).Sublist datos := by
  cases pfx with
  | none => exact List.filter_sublist datos
  | some p => exact (List.filter_sublist _).trans (List.filter_sublist datos)

/-- C8 (amended): the temporal filter of the scripts performs no parsing
or validation of the configured maximum date: for every maximum date
string, parseable or not, it returns normally with a sublist of the
input, and empty input yields empty output. -/
theorem C8_filtro_nunca_falla (datos : List CaseRecord)
    (fechaMaxima : String) (pfx : Option String) :
    (temporalFilter datos fechaMaxima pfx).Sublist datos ∧
    temporalFilter [] fechaMaxima pfx = [] := by
  refine ⟨temporalFilter_sublist datos fechaMaxima pfx, ?_⟩
  cases pfx <;> rfl

/-- C8 counterexample: with the unparseable maximum date not-a-date the
filter of the scripts returns a normal result (it compares raw strings),
while the behaviour demanded by the claim would be a validation error. -/
theorem C8_filtro_nunca_falla_contraejemplo :
    lenientParse "not-a-date" = none ∧
    temporalFilter [rUSA] "not-a-date" (some "OWID") = [rUSA] ∧
    specTemporalFilter [rUSA] "not-a-date" (some "OWID")
      = Except.error "ValidationError: fecha maxima no interpretable" := by
  refine ⟨by decide, by decide, rfl⟩

/-- Strict zero-padded ISO-8601 date recognition: exactly the strings of
shape YYYY-MM-DD with decimal digits, month 01 to 12 and day 01 to 31,
together with the calendar date they denote. -/
def parseIso (s : String) : Option (Nat × Nat × Nat) :=
  match s.data with
  | [y1, y2, y3, y4, g1, m1, m2, g2, d1, d2] =>
    if g1 = '-' ∧ g2 = '-' ∧ isDigitCh y1 ∧ isDigitCh y2 ∧ isDigitCh y3
        ∧ isDigitCh y4 ∧ isDigitCh m1 ∧ isDigitCh m2 ∧ isDigitCh d1
        ∧ isDigitCh d2 then
      if 1 ≤ (charCode m1 - 48) * 10 + (charCode m2 - 48)
          ∧ (charCode m1 - 48) * 10 + (charCode m2 - 48) ≤ 12
          ∧ 1 ≤ (charCode d1 - 48) * 10 + (charCode d2 - 48)
          ∧ (charCode d1 - 48) * 10 + (charCode d2 - 48) ≤ 31 then
        some ((charCode y1 - 48) * 1000 + (charCode y2 - 48) * 100
            + (charCode y3 - 48) * 10 + (charCode y4 - 48)
          , (charCode m1 - 48) * 10 + (charCode m2 - 48)
          , (charCode d1 - 48) * 10 + (charCode d2 - 48))
      else none
    else none
  | _ => none

/-- Chronological comparison of (year, month, day) triples. -/
def triLe (a b : Nat × Nat × Nat) : Bool :=
  decide (a.1 < b.1) || (decide (a.1 = b.1) &&
    (decide (a.2.1 < b.2.1) || (decide (a.2.1 = b.2.1)
      && decide (a.2.2 ≤ b.2.2))))

/-- Lexicographic order on code-point lists, as a proposition. -/
def lexLe : List Nat → List Nat → Prop
  | [], _ => True
  | _ :: _, [] => False
  | a :: as, b :: bs => a < b ∨ (a = b ∧ lexLe as bs)

/-- The Boolean code-point comparison agrees with the propositional
lexicographic order. -/
theorem pyStrLeAux_iff_lexLe :
    ∀ xs ys : List Char,
      pyStrLeAux xs ys = true ↔
        lexLe (xs.map charCode) (ys.map charCode) := by
  intro xs
  induction xs with
  | nil => intro ys; simp [pyStrLeAux, lexLe]
  | cons a as ih =>
    intro ys
    cases ys with
    | nil => simp [pyStrLeAux, lexLe]
    | cons b bs =>
      simp only [pyStrLeAux, List.map_cons, lexLe]
      by_cases h1 : charCode a < charCode b
      · simp [h1]
      · by_cases h2 : charCode b < charCode a
        · have : ¬(charCode a = charCode b) := by omega
          simp [h1, h2, this]
        · have he : charCode a = charCode b := by omega
          simp [h1, h2, he, ih bs]

/-- Chronological comparison against the boundary date, unfolded. -/
theorem triLe_2024_iff (y m d : Nat) :
    (triLe (y, m, d) (2024, 8, 4) = true)
      = (y < 2024 ∨ (y = 2024 ∧ (m < 8 ∨ (m = 8 ∧ d ≤ 4)))) := by
  simp [triLe]

/-- Digit characters are the ones with code points between 48 and 57. -/
theorem isDigitCh_iff {c : Char} :
    isDigitCh c = true ↔ 48 ≤ charCode c ∧ charCode c ≤ 57 := by
  simp [isDigitCh]

/-- The code-point comparison of a zero-padded date-shaped string against
the boundary literal agrees with the chronological comparison of the digit
values. -/
theorem lexLe_fecha_maxima (c1 c2 c3 c4 c6 c7 c9 c10 : Char)
    (hy1 : 48 ≤ charCode c1 ∧ charCode c1 ≤ 57)
    (hy2 : 48 ≤ charCode c2 ∧ charCode c2 ≤ 57)
    (hy3 : 48 ≤ charCode c3 ∧ charCode c3 ≤ 57)
    (hy4 : 48 ≤ charCode c4 ∧ charCode c4 ≤ 57)
    (hm1 : 48 ≤ charCode c6 ∧ charCode c6 ≤ 57)
    (hm2 : 48 ≤ charCode c7 ∧ charCode c7 ≤ 57)
    (hd1 : 48 ≤ charCode c9 ∧ charCode c9 ≤ 57)
    (hd2 : 48 ≤ charCode c10 ∧ charCode c10 ≤ 57) :
    (pyStrLeAux [c1, c2, c3, c4, '-', c6, c7, '-', c9, c10]
        ['2', '0', '2', '4', '-', '0', '8', '-', '0', '4'] = true)
      ↔ (triLe ((charCode c1 - 48) * 1000 + (charCode c2 - 48) * 100
            + (charCode c3 - 48) * 10 + (charCode c4 - 48)
          , (charCode c6 - 48) * 10 + (charCode c7 - 48)
          , (charCode c9 - 48) * 10 + (charCode c10 - 48))
        (2024, 8, 4) = true) := by
  rw [pyStrLeAux_iff_lexLe, triLe_2024_iff]
  have e2 : charCode '2' = 50 := rfl
  have e0 : charCode '0' = 48 := rfl
  have e4 : charCode '4' = 52 := rfl
  have e8 : charCode '8' = 56 := rfl
  have eg : charCode '-' = 45 := rfl
  simp only [List.map_cons, List.map_nil, lexLe, e2, e0, e4, e8, eg,
    and_true, or_false]
  obtain ⟨a1, ha1⟩ : ∃ a, charCode c1 = 48 + a ∧ a ≤ 9 :=
    ⟨charCode c1 - 48, by omega, by omega⟩
  obtain ⟨a2, ha2⟩ : ∃ a, charCode c2 = 48 + a ∧ a ≤ 9 :=
    ⟨charCode c2 - 48, by omega, by omega⟩
  obtain ⟨a3, ha3⟩ : ∃ a, charCode c3 = 48 + a ∧ a ≤ 9 :=
    ⟨charCode c3 - 48, by omega, by omega⟩
  obtain ⟨a4, ha4⟩ : ∃ a, charCode c4 = 48 + a ∧ a ≤ 9 :=
    ⟨charCode c4 - 48, by omega, by omega⟩
  obtain ⟨a6, ha6⟩ : ∃ a, charCode c6 = 48 + a ∧ a ≤ 9 :=
    ⟨charCode c6 - 48, by omega, by omega⟩
  obtain ⟨a7, ha7⟩ : ∃ a, charCode c7 = 48 + a ∧ a ≤ 9 :=
    ⟨charCode c7 - 48, by omega, by omega⟩
  obtain ⟨a9, ha9⟩ : ∃ a, charCode c9 = 48 + a ∧ a ≤ 9 :=
    ⟨charCode c9 - 48, by omega, by omega⟩
  obtain ⟨a10, ha10⟩ : ∃ a, charCode c10 = 48 + a ∧ a ≤ 9 :=
    ⟨charCode c10 - 48, by omega, by omega⟩
  rw [ha1.1, ha2.1, ha3.1, ha4.1, ha6.1, ha7.1, ha9.1, ha10.1]
  simp only [Nat.add_sub_cancel_left]
  have b1 := ha1.2
  have b2 := ha2.2
  have b3 := ha3.2
  have b4 := ha4.2
  have b6 := ha6.2
  have b7 := ha7.2
  have b9 := ha9.2
  have b10 := ha10.2
  constructor
  · intro h
    rcases h with h | ⟨e1, h | ⟨e2h, h | ⟨e3h, h | ⟨e4h, h | ⟨-, h | ⟨e6,
      h | ⟨e7, h | ⟨-, h | ⟨e9, h | h⟩⟩⟩⟩⟩⟩⟩⟩⟩ <;> omega
  · intro h
    rcases h with h | ⟨heq, h | ⟨hmeq, hd⟩⟩
    · rcases Nat.lt_trichotomy a1 2 with g1 | g1 | g1
      · omega
      · have g2 : a2 = 0 := by omega
        rcases Nat.lt_trichotomy a3 2 with g3 | g3 | g3
        · omega
        · have g4 : a4 < 4 := by omega
          omega
        · omega
      · omega
    · have g : a1 = 2 ∧ a2 = 0 ∧ a3 = 2 ∧ a4 = 4 := by omega
      have g6 : a6 = 0 := by omega
      have g7 : a7 < 8 := by omega
      exact Or.inr ⟨by omega, Or.inr ⟨by omega, Or.inr ⟨by omega,
        Or.inr ⟨by omega, Or.inr ⟨trivial, Or.inr ⟨by omega,
        Or.inl (by omega)⟩⟩⟩⟩⟩⟩
    · have g : a1 = 2 ∧ a2 = 0 ∧ a3 = 2 ∧ a4 = 4 := by omega
      have g6 : a6 = 0 ∧ a7 = 8 := by omega
      have g9 : a9 = 0 ∧ a10 ≤ 4 := by omega
      exact Or.inr ⟨by omega, Or.inr ⟨by omega, Or.inr ⟨by omega,
        Or.inr ⟨by omega, Or.inr ⟨trivial, Or.inr ⟨by omega,
        Or.inr ⟨by omega, Or.inr ⟨trivial, Or.inr ⟨by omega,
        by omega⟩⟩⟩⟩⟩⟩⟩⟩⟩

/-- C9 (amended): the filter compares raw date strings lexicographically
against the configured literal before any date parsing, and on every
zero-padded ISO-8601 date string this comparison agrees with the
chronological comparison of the denoted calendar dates (the converse of
the claim fails: agreement can also occur for non-zero-padded strings). -/
theorem C9_comparacion_lexicografica (s : String) (y m d : Nat)
    (h : parseIso s = some (y, m, d)) :
    pyStrLe s FECHA_MAXIMA_DATOS_COVID = true
      ↔ triLe (y, m, d) (2024, 8, 4) = true := by
  unfold parseIso at h
  rcases hs : s.data with _ | ⟨c1, _ | ⟨c2, _ | ⟨c3, _ | ⟨c4, _ | ⟨c5,
    _ | ⟨c6, _ | ⟨c7, _ | ⟨c8, _ | ⟨c9, _ | ⟨c10, _ | ⟨c11, rest⟩⟩⟩⟩⟩⟩⟩⟩⟩⟩⟩ <;>
    rw [hs] at h <;> simp only [] at h
  case cons.cons.cons.cons.cons.cons.cons.cons.cons.cons.nil =>
    split_ifs at h with hcond hrange
    · obtain ⟨hg1, hg2, hy1, hy2, hy3, hy4, hm1, hm2, hd1, hd2⟩ := hcond
      rw [Option.some.injEq, Prod.mk.injEq, Prod.mk.injEq] at h
      obtain ⟨hy, hm, hd⟩ := h
      subst hg1
      subst hg2
      rw [isDigitCh_iff] at hy1 hy2 hy3 hy4 hm1 hm2 hd1 hd2
      rw [pyStrLe, hs]
      have hf : FECHA_MAXIMA_DATOS_COVID.data
          = ['2', '0', '2', '4', '-', '0', '8', '-', '0', '4'] := rfl
      rw [hf]
      subst hy
      subst hm
      subst hd
      exact lexLe_fecha_maxima c1 c2 c3 c4 c6 c7 c9 c10
        hy1 hy2 hy3 hy4 hm1 hm2 hd1 hd2
  all_goals exact Option.noConfusion h

/-- C9 witness: the zero-padded string 2023-09-01 compares against the
boundary exactly as the calendar date (2023, 9, 1) does. -/
theorem C9_comparacion_lexicografica_witness :
    pyStrLe "2023-09-01" FECHA_MAXIMA_DATOS_COVID = true
      ↔ triLe (2023, 9, 1) (2024, 8, 4) = true :=
  C9_comparacion_lexicografica "2023-09-01" 2023 9 1 (by decide)

/-- C9 counterexample: the non-zero-padded string 2023-9-01 is parseable
as a calendar date by the lenient parser but is not zero-padded ISO-8601;
its string comparison against the boundary nevertheless coincides with
the chronological comparison, so coincidence does not hold exactly when
the string is zero-padded ISO-8601. -/
theorem C9_comparacion_lexicografica_contraejemplo :
    lenientParse "2023-9-01" = some (2023, 9, 1) ∧
    parseIso "2023-9-01" = none ∧
    pyStrLe "2023-9-01" FECHA_MAXIMA_DATOS_COVID = true ∧
    triLe (2023, 9, 1) (2024, 8, 4) = true := by
  refine ⟨by decide, by decide, by decide, by decide⟩

/-- C10: if no record has a country code starting with OWID, the two
script variants produce identical table, time-series and choropleth
outputs; with an OWID pseudo-region record present the equivalence fails,
because variant a omits the region-exclusion step. -/
theorem C10_equivalencia_condicional :
    (∀ (datos : List CaseRecord) (paises : List CountryPolygon),
      (∀ r ∈ datos, pyStartsWith r.iso_code "OWID" = false) →
      pipelineVarianteA datos paises = pipelineVarianteB datos paises) ∧
    pipelineVarianteA [rOWID] [] ≠ pipelineVarianteB [rOWID] [] := by
  constructor
  · intro datos paises h
    have hstep : filtroVarianteB datos
        = (filtroVarianteA datos).filter
          (fun r => !(pyStartsWith r.iso_code "OWID")) := rfl
    have hfil : filtroVarianteB datos = filtroVarianteA datos := by
      rw [hstep]
      apply List.filter_eq_self.mpr
      intro r hr
      have hrd : r ∈ datos :=
        (temporalFilter_sublist datos FECHA_MAXIMA_DATOS_COVID none).subset hr
      simp [h r hrd]
    unfold pipelineVarianteA pipelineVarianteB pipeline
    rw [hfil]
  · decide

/-- C10 witness: the conditional equivalence at a concrete OWID-free
input. -/
theorem C10_equivalencia_condicional_witness :
    pipelineVarianteA [rUSA, rCAN] [⟨"USA", 0⟩]
      = pipelineVarianteB [rUSA, rCAN] [⟨"USA", 0⟩] :=
  C10_equivalencia_condicional.1 [rUSA, rCAN] [⟨"USA", 0⟩] (by decide)
